import Mathlib

/-!
# Verification of the HGVS protein-notation parser (`utils/python/amino_acid.py`)

This file is a shallow embedding of the `AminoAcid` class of the repository.
Python strings are modelled as `List Char`; a parse that raises an exception
(`IndexError` from indexing `[0]` into an empty `re.findall` result,
`ValueError` from `int()`) is modelled as `none`; a Python attribute that is
never assigned on the object is modelled as `none` of an `Option` field, while
an attribute assigned the value `None` is modelled as `some PyVal.none`.

Modelling notes, applying throughout:
* `str.upper()` is modelled as per-character ASCII upper-casing, which agrees
  with Python on the inputs of interest (the notation alphabet is ASCII);
* regex anchors `^`/`$` are modelled as exact string boundaries and `.` as any
  character (Python lets `$` also match before one trailing newline and
  excludes newline from `.`; the two models agree on every newline-free input);
* `\d` / `[A-Z]` are modelled as the ASCII ranges `'0'-'9'` / `'A'-'Z'`;
* the repository is Python 2 (`iteritems` in its callers), so `map(int, ...)`
  is an eager list.
-/

/-- A dynamically-typed Python value, as stored in the attributes
`initial`, `pos`, `mutated` and `stop_pos` of the `AminoAcid` object
(the source stores strings, ints, lists and `None` in those attributes
depending on the branch taken). -/
inductive PyVal where
  | none : PyVal
  | int : Nat → PyVal
  | str : String → PyVal
  | list : List PyVal → PyVal
deriving Repr

/-- ASCII upper-case letter, i.e. the regex class `[A-Z]`. -/
def isUpperAlpha (c : Char) : Bool := 'A' ≤ c && c ≤ 'Z'

/-- ASCII digit, i.e. the regex class `\d` (ASCII reading). -/
def isDigitCh (c : Char) : Bool := '0' ≤ c && c ≤ '9'

/-- The regex class `[A-Z?]`. -/
def isAZq (c : Char) : Bool := isUpperAlpha c || c == '?'

/-- The regex class `[A-Z0-9?]` used after the `INS` marker. -/
def isInsCh (c : Char) : Bool := isUpperAlpha c || isDigitCh c || c == '?'

/-- `str.upper()` on one character: the ASCII table (extensionally the same
as `Char.toUpper`, written out so that facts such as
`pyUpper c = '?' → c = '?'` are provable by case analysis). -/
def pyUpper (c : Char) : Char :=
  match c with
  | 'a' => 'A' | 'b' => 'B' | 'c' => 'C' | 'd' => 'D' | 'e' => 'E'
  | 'f' => 'F' | 'g' => 'G' | 'h' => 'H' | 'i' => 'I' | 'j' => 'J'
  | 'k' => 'K' | 'l' => 'L' | 'm' => 'M' | 'n' => 'N' | 'o' => 'O'
  | 'p' => 'P' | 'q' => 'Q' | 'r' => 'R' | 's' => 'S' | 't' => 'T'
  | 'u' => 'U' | 'v' => 'V' | 'w' => 'W' | 'x' => 'X' | 'y' => 'Y'
  | 'z' => 'Z' | c => c

/-- `s.upper()` on the character list of a Python string. -/
def upperChars (l : List Char) : List Char := l.map pyUpper

/-- Does `l` start with the pattern `pat` (Python `str.startswith` on a
character list)? -/
def startsWithSub : List Char → List Char → Bool
  | [], _ => true
  | _ :: _, [] => false
  | p :: ps, c :: cs => p == c && startsWithSub ps cs

/-- `s[2:] if s.startswith("P.") else s` — strip the protein prefix from an
already upper-cased string. -/
def stripP (l : List Char) : List Char :=
  if startsWithSub ['P', '.'] l then l.drop 2 else l

/-- Python's substring containment `pat in l`. -/
def containsSub (pat : List Char) : List Char → Bool
  | [] => startsWithSub pat []
  | c :: cs => startsWithSub pat (c :: cs) || containsSub pat cs

/-- `int(...)` of a digit string (`foldl` base-10). -/
def natOfDigits (l : List Char) : Nat :=
  l.foldl (fun n c => 10 * n + (c.toNat - '0'.toNat)) 0

/-- `int(s)`, failing (`ValueError`, modelled `none`) unless `s` is a
non-empty digit string. -/
def pyInt (l : List Char) : Option Nat :=
  if l ≠ [] ∧ l.all isDigitCh then some (natOfDigits l) else none

/-- `s[1:-1]` — the characters strictly between the first and the last one. -/
def middle (l : List Char) : List Char := (l.drop 1).dropLast

/-- `re.search('^[A-Z?]\d+[A-Z?]$', ...)`: the part `\d*[A-Z?]$` after the
first mandatory digit. -/
def afterDigit : List Char → Bool
  | [] => false
  | [c] => isAZq c
  | c :: rest => isDigitCh c && afterDigit rest

/-- `re.search('^[A-Z?]\d+[A-Z?]$', ...)`: the part `\d+[A-Z?]$`. -/
def digitsTail : List Char → Bool
  | [] => false
  | c :: rest => isDigitCh c && afterDigit rest

/-- Full-string match of `^[A-Z?]\d+[A-Z?]$` (the missense test of
`__set_missense_status`). -/
def missenseMatch : List Char → Bool
  | [] => false
  | c :: rest => isAZq c && digitsTail rest

/-- `hgvs_string.endswith('*')`. -/
def endsStar (l : List Char) : Bool :=
  decide (l.getLast? = some '*')

/-- `re.search('.+\*(\d+)?$', hgvs_string)` of
`__set_premature_stop_codon_status`: some `'*'` preceded by at least one
character and followed only by digits up to the end of the string. -/
def stopMatch (l : List Char) : Bool :=
  match l.reverse.dropWhile isDigitCh with
  | '*' :: _ :: _ => true
  | _ => false

/-- `re.findall('\*>?(\d+)$', aa_hgvs)[0]` — the digit group of the trailing
stop offset, `none` when the pattern does not match (`IndexError`). -/
def fsStop (l : List Char) : Option (List Char) :=
  let r := l.reverse
  let ds := r.takeWhile isDigitCh
  if ds = [] then none
  else
    match r.dropWhile isDigitCh with
    | '*' :: _ => some ds.reverse
    | '>' :: '*' :: _ => some ds.reverse
    | _ => none

/-- `re.findall('[A-Z](\d+)', aa_hgvs)[0]` — the digit group of the first
letter-followed-by-digits match, `none` when there is none (`IndexError`). -/
def firstLetterDigits : List Char → Option (List Char)
  | [] => none
  | [_] => none
  | a :: b :: rest =>
    if isUpperAlpha a && isDigitCh b then some ((b :: rest).takeWhile isDigitCh)
    else firstLetterDigits (b :: rest)

/-- All matches of `[A-Z]\d+` with their captured letter and digit group
(`re.findall('([A-Z])\d+', ...)` paired with `re.findall('[A-Z](\d+)', ...)`).
Scanning every position is equivalent to `re.findall`'s skip-past-the-match
scan here, because a new match would need a letter and a match contains
letters only at its first position. -/
def letterDigitMatches : List Char → List (Char × List Char)
  | [] => []
  | a :: rest =>
    match rest with
    | [] => []
    | b :: _ =>
      if isUpperAlpha a && isDigitCh b then
        (a, rest.takeWhile isDigitCh) :: letterDigitMatches rest
      else letterDigitMatches rest

/-- `re.findall('(?<=INS)[A-Z0-9?]+', aa_hgvs)[0]` — the run of
`[A-Z0-9?]` characters after the first `INS` marker followed by at least one
such character; `none` when no such run exists (`IndexError`). -/
def insAfter : List Char → Option (List Char)
  | [] => none
  | c :: t =>
    if startsWithSub ['I', 'N', 'S'] (c :: t) then
      let run := (t.drop 2).takeWhile isInsCh
      if run.isEmpty then insAfter t else some run
    else insAfter t

/-- `re.findall('(?<=DEL)[A-Z]*', aa_hgvs)[0]` — the (possibly empty) run of
letters after the first `DEL` marker; `none` only when `DEL` does not occur. -/
def delAfter : List Char → Option (List Char)
  | [] => none
  | c :: t =>
    if startsWithSub ['D', 'E', 'L'] (c :: t) then
      some ((t.drop 2).takeWhile isUpperAlpha)
    else delAfter t

/-- `str.strip('?')` — remove `'?'` characters from both ends. -/
def stripQ (l : List Char) : List Char :=
  ((l.dropWhile (· == '?')).reverse.dropWhile (· == '?')).reverse

/-- The flag block computed by `__set_mutation_status` /
`__set_mutation_type` and their helpers. -/
structure MutFlags where
  unknown_effect : Bool
  is_missing_info : Bool
  no_protein : Bool
  is_missense : Bool
  is_frame_shift : Bool
  is_premature_stop_codon : Bool
  is_nonsense_mutation : Bool
  is_insertion : Bool
  is_deletion : Bool
  is_indel : Bool
deriving Repr, DecidableEq

/-- `__set_unkown_effect`: the `unknown_effect` flag on the prefix-stripped
string `hgvs_tmp`. -/
def unknownEffectFlag (b : List Char) : Bool :=
  if b = ['?'] ∨ b = ['(', '=', ')'] ∨ b = ['='] then true
  else if b.contains '(' then true
  else false

/-- `__set_unkown_effect`: the `is_missing_info` flag (`'?' in hgvs_string`). -/
def missingInfoFlag (b : List Char) : Bool := b.contains '?'

/-- `__set_no_protein`: `hgvs_string in ['0', '0?']`. -/
def noProteinFlag (b : List Char) : Bool :=
  if b = ['0'] ∨ b = ['0', '?'] then true else false

/-- `__set_mutation_status` together with the helpers it calls: all flags,
computed from the original string `hgvs_original` (for the `ins`/`del`/`fs`
substring tests) and the upper-cased string `self.hgvs` (stripped to
`hgvs_tmp` for everything else). -/
def setMutationStatus (hgvs_original hgvs : List Char) : MutFlags :=
  let tmp := stripP hgvs
  let ins := containsSub ['i', 'n', 's'] hgvs_original
  let del := containsSub ['d', 'e', 'l'] hgvs_original
  { unknown_effect := unknownEffectFlag tmp
    is_missing_info := missingInfoFlag tmp
    no_protein := noProteinFlag tmp
    is_missense := missenseMatch tmp
    is_frame_shift := containsSub ['f', 's'] hgvs_original
    is_premature_stop_codon := stopMatch tmp
    is_nonsense_mutation := stopMatch tmp && endsStar tmp
    is_insertion := ins
    is_deletion := !ins && del
    is_indel := ins || del }

/-- The attributes assigned by `__read_hgvs_syntax`. An `Option` field that
is `none` models a Python attribute that the branch taken never assigns. -/
structure Extract where
  is_valid : Bool
  is_synonymous : Option Bool
  initial : Option PyVal
  pos : Option PyVal
  mutated : Option PyVal
  stop_pos : Option PyVal
deriving Repr

/-- `__read_hgvs_syntax(aa_hgvs)`: branch on the flag block and extract the
category-specific attributes; `none` models an uncaught exception. -/
def readHgvs (f : MutFlags) (body : List Char) : Option Extract :=
  if f.is_missense then
    match body.head?, body.getLast?, pyInt (middle body) with
    | some c0, some cl, some n =>
      some { is_valid := true
             is_synonymous := some (c0 == cl)
             initial := some (.str (String.mk [c0]))
             mutated := some (.str (String.mk [cl]))
             pos := some (.int n)
             stop_pos := some .none }
    | _, _, _ => none
  else if f.is_indel then
    if f.is_insertion then
      if !f.is_missing_info then
        match insAfter body with
        | some run =>
          some { is_valid := true
                 is_synonymous := none
                 initial := some (.list ((letterDigitMatches body).take 2 |>.map
                   fun m => .str (String.mk [m.1])))
                 pos := some (.list ((letterDigitMatches body).take 2 |>.map
                   fun m => .int (natOfDigits m.2)))
                 mutated := some (.str (String.mk (stripQ run)))
                 stop_pos := none }
        | none => none
      else
        some { is_valid := true, is_synonymous := none
               initial := some (.str ""), pos := some (.list [])
               mutated := some (.str ""), stop_pos := none }
    else if f.is_deletion then
      if !f.is_missing_info then
        match delAfter body with
        | some run =>
          some { is_valid := true
                 is_synonymous := none
                 initial := some (.list ((letterDigitMatches body).map
                   fun m => .str (String.mk [m.1])))
                 pos := some (.list ((letterDigitMatches body).map
                   fun m => .int (natOfDigits m.2)))
                 mutated := some (.str (String.mk run))
                 stop_pos := none }
        | none => none
      else
        some { is_valid := true, is_synonymous := none
               initial := some (.str ""), pos := some (.list [])
               mutated := some (.str ""), stop_pos := none }
    else
      -- unreachable: `is_indel` implies `is_insertion` or `is_deletion`;
      -- the source has no further branch, so nothing is assigned
      some { is_valid := true, is_synonymous := none
             initial := none, pos := none, mutated := none, stop_pos := none }
  else if f.is_nonsense_mutation then
    match body.head? with
    | some c0 =>
      some { is_valid := true
             is_synonymous := none
             initial := some (.str (String.mk [c0]))
             mutated := some (.str "")
             stop_pos := some (.int 0)
             pos := some (.str (String.mk (middle body))) }
    | none => none
  else if f.is_frame_shift then
    match body.head?, firstLetterDigits body with
    | some c0, some ds =>
      (if f.is_premature_stop_codon then
        (fsStop body).map fun ds2 => PyVal.int (natOfDigits ds2)
      else some PyVal.none).map fun sp =>
        { is_valid := true
          is_synonymous := none
          initial := some (.str (String.mk [c0]))
          mutated := some (.str "")
          pos := some (.int (natOfDigits ds))
          stop_pos := some sp }
    | _, _ => none
  else
    some { is_valid := false, is_synonymous := none
           initial := none, pos := none, mutated := none, stop_pos := none }

/-- The `AminoAcid` object after `__init__` has run. `Option` extraction
fields record whether the corresponding Python attribute was assigned. -/
structure AminoAcid where
  hgvs_original : String
  hgvs : String
  occurrence : Nat
  unknown_effect : Bool
  is_missing_info : Bool
  no_protein : Bool
  is_missense : Bool
  is_frame_shift : Bool
  is_premature_stop_codon : Bool
  is_nonsense_mutation : Bool
  is_insertion : Bool
  is_deletion : Bool
  is_indel : Bool
  is_valid : Bool
  is_synonymous : Option Bool
  initial : Option PyVal
  pos : Option PyVal
  mutated : Option PyVal
  stop_pos : Option PyVal
deriving Repr

/-- Assemble the object from the input strings, flag block and extraction. -/
def mkAminoAcid (orig : String) (up : List Char) (occ : Nat)
    (f : MutFlags) (e : Extract) : AminoAcid :=
  { hgvs_original := orig
    hgvs := String.mk up
    occurrence := occ
    unknown_effect := f.unknown_effect
    is_missing_info := f.is_missing_info
    no_protein := f.no_protein
    is_missense := f.is_missense
    is_frame_shift := f.is_frame_shift
    is_premature_stop_codon := f.is_premature_stop_codon
    is_nonsense_mutation := f.is_nonsense_mutation
    is_insertion := f.is_insertion
    is_deletion := f.is_deletion
    is_indel := f.is_indel
    is_valid := e.is_valid
    is_synonymous := e.is_synonymous
    initial := e.initial
    pos := e.pos
    mutated := e.mutated
    stop_pos := e.stop_pos }

/-- `AminoAcid(hgvs, occurrence)` — the whole constructor: upper-case,
compute the flag block, strip the `P.` prefix, read the HGVS syntax.
`none` models the constructor raising an exception. -/
def parseAAWith (hgvs : String) (occurrence : Nat) : Option AminoAcid :=
  let raw := hgvs.data
  let up := upperChars raw
  let f := setMutationStatus raw up
  (readHgvs f (stripP up)).map (mkAminoAcid hgvs up occurrence f)

/-- `AminoAcid(hgvs)` with the default occurrence of 1. -/
def parseAA (hgvs : String) : Option AminoAcid := parseAAWith hgvs 1

/-- The mutation category of the specification's data model. -/
inductive Category where
  | Missense
  | Synonymous
  | Insertion
  | Deletion
  | Frameshift
  | Nonsense
  | Invalid
deriving Repr, DecidableEq

/-- The single category tag of a parsed record, resolved exactly in the
branch order of `__read_hgvs_syntax`: missense (refined to synonymous),
then insertion/deletion, then nonsense, then frameshift, then invalid. -/
def categoryOf (a : AminoAcid) : Category :=
  if a.is_missense then
    if a.is_synonymous = some true then .Synonymous else .Missense
  else if a.is_insertion then .Insertion
  else if a.is_deletion then .Deletion
  else if a.is_nonsense_mutation then .Nonsense
  else if a.is_frame_shift then .Frameshift
  else .Invalid

/-- The upper-cased input (`self.hgvs`) as a character list. -/
def upperOf (s : String) : List Char := upperChars s.data

/-- The upper-cased, prefix-stripped variant body the parser works on. -/
def bodyOf (s : String) : List Char := stripP (upperOf s)

/-! ## Lemmas about the string scanners -/

theorem startsWithSub_iff : ∀ p l : List Char, startsWithSub p l = true ↔ p <+: l
  | [], l => by simp [startsWithSub, List.nil_prefix]
  | p :: ps, [] => by simp [startsWithSub]
  | p :: ps, c :: cs => by
    simp [startsWithSub, startsWithSub_iff ps cs, List.cons_prefix_cons, beq_iff_eq]

theorem containsSub_iff : ∀ p l : List Char, containsSub p l = true ↔ p <:+: l
  | p, [] => by
    simp only [containsSub, startsWithSub_iff, List.infix_nil, List.prefix_nil]
  | p, c :: cs => by
    simp only [containsSub, Bool.or_eq_true, startsWithSub_iff,
      containsSub_iff p cs, List.infix_cons_iff]

theorem pyUpper_eq_qmark {c : Char} (h : pyUpper c = '?') : c = '?' := by
  unfold pyUpper at h
  split at h <;> first | exact h | exact absurd h (by decide)

theorem mem_stripP {c : Char} {l : List Char} (h : c ∈ stripP l) : c ∈ l := by
  unfold stripP at h
  split at h
  · exact List.mem_of_mem_drop h
  · exact h

theorem qmark_mem_of_body {s : String} (h : '?' ∈ bodyOf s) : '?' ∈ s.data := by
  obtain ⟨d, hd, hud⟩ := List.mem_map.1 (mem_stripP h)
  rwa [← pyUpper_eq_qmark hud]

theorem infix_stripP {p l : List Char} (hP : p.head? ≠ some 'P')
    (hD : p.head? ≠ some '.') (h : p <:+: l) : p <:+: stripP l := by
  unfold stripP
  split
  · next hs =>
    obtain ⟨t, ht⟩ := (startsWithSub_iff _ _).1 hs
    subst ht
    rcases List.infix_cons_iff.1 h with hpre | h2
    · cases p with
      | nil => exact List.nil_infix
      | cons x xs =>
        exact absurd (congrArg some (List.cons_prefix_cons.1 hpre).1) hP
    · rcases List.infix_cons_iff.1 h2 with hpre | h3
      · cases p with
        | nil => exact List.nil_infix
        | cons x xs =>
          exact absurd (congrArg some (List.cons_prefix_cons.1 hpre).1) hD
      · simpa using h3
  · exact h

theorem afterDigit_shape : ∀ l : List Char, afterDigit l = true →
    ∃ mid c, l = mid ++ [c] ∧ (∀ x ∈ mid, isDigitCh x = true) ∧ isAZq c = true
  | [], h => by simp [afterDigit] at h
  | [c], h => ⟨[], c, rfl, by simp, by simpa [afterDigit] using h⟩
  | a :: b :: rest, h => by
    rw [show afterDigit (a :: b :: rest) = (isDigitCh a && afterDigit (b :: rest))
      from rfl, Bool.and_eq_true] at h
    obtain ⟨mid, c, heq, hmid, hc⟩ := afterDigit_shape (b :: rest) h.2
    refine ⟨a :: mid, c, by simp [heq], ?_, hc⟩
    intro x hx
    rcases List.mem_cons.1 hx with rfl | hx
    · exact h.1
    · exact hmid x hx

theorem missense_shape {l : List Char} (h : missenseMatch l = true) :
    ∃ c0 mid cl, l = c0 :: (mid ++ [cl]) ∧ mid ≠ [] ∧
      (∀ x ∈ mid, isDigitCh x = true) ∧ isAZq c0 = true ∧ isAZq cl = true := by
  cases l with
  | nil => simp [missenseMatch] at h
  | cons c rest =>
    rw [show missenseMatch (c :: rest) = (isAZq c && digitsTail rest) from rfl,
      Bool.and_eq_true] at h
    cases rest with
    | nil => simp [digitsTail] at h
    | cons d rest' =>
      obtain ⟨h1, h2⟩ := h
      rw [show digitsTail (d :: rest') = (isDigitCh d && afterDigit rest') from rfl,
        Bool.and_eq_true] at h2
      obtain ⟨mid, cl, heq, hmid, hcl⟩ := afterDigit_shape rest' h2.2
      refine ⟨c, d :: mid, cl, by simp [heq], by simp, ?_, h1, hcl⟩
      intro x hx
      rcases List.mem_cons.1 hx with rfl | hx
      · exact h2.1
      · exact hmid x hx

theorem missense_countP {l : List Char} (h : missenseMatch l = true) :
    l.countP (fun c => !isDigitCh c) ≤ 2 := by
  obtain ⟨c0, mid, cl, heq, _, hmid, _, _⟩ := missense_shape h
  subst heq
  have h0 : mid.countP (fun c => !isDigitCh c) = 0 :=
    List.countP_eq_zero.2 (by intro x hx; simp [hmid x hx])
  rw [List.countP_cons, List.countP_append, h0, List.countP_cons, List.countP_nil]
  split_ifs <;> norm_num

theorem not_missense_of_infix3 {a b c : Char} {l : List Char}
    (ha : isDigitCh a = false) (hb : isDigitCh b = false) (hc : isDigitCh c = false)
    (h : [a, b, c] <:+: l) : missenseMatch l = false := by
  by_contra hm
  rw [Bool.not_eq_false] at hm
  have h2 := missense_countP hm
  have h3 := h.sublist.countP_le (fun x => !isDigitCh x)
  rw [List.countP_cons, List.countP_cons, List.countP_cons, List.countP_nil] at h3
  simp [ha, hb, hc] at h3
  omega

theorem delAfter_of_infix : ∀ {l : List Char}, ['D', 'E', 'L'] <:+: l →
    ∃ r, delAfter l = some r ∧ r.all isUpperAlpha = true
  | [], h => by simp at h
  | c :: t, h => by
    unfold delAfter
    split
    · refine ⟨_, rfl, ?_⟩
      exact List.all_eq_true.2 fun x hx => List.mem_takeWhile_imp hx
    · next hns =>
      rcases List.infix_cons_iff.1 h with hpre | hi
      · exact absurd ((startsWithSub_iff _ _).2 hpre) hns
      · exact delAfter_of_infix hi

theorem insAfter_mem : ∀ {l r : List Char}, insAfter l = some r →
    r ≠ [] ∧ ∀ c ∈ r, c ∈ l
  | [], r, h => by simp [insAfter] at h
  | c :: t, r, h => by
    unfold insAfter at h
    split at h
    · dsimp only at h
      split at h
      · have ih := insAfter_mem h
        exact ⟨ih.1, fun x hx => List.mem_cons_of_mem _ (ih.2 x hx)⟩
      · next hne =>
        injection h with h'
        subst h'
        refine ⟨by simpa [List.isEmpty_iff] using hne, ?_⟩
        intro x hx
        exact List.mem_cons_of_mem _
          ((List.drop_sublist 2 t).subset ((List.takeWhile_sublist _).subset hx))
    · have ih := insAfter_mem h
      exact ⟨ih.1, fun x hx => List.mem_cons_of_mem _ (ih.2 x hx)⟩

theorem stripQ_of_not_mem {l : List Char} (h : '?' ∉ l) : stripQ l = l := by
  have h1 : l.dropWhile (· == '?') = l := by
    cases l with
    | nil => rfl
    | cons c t =>
      refine List.dropWhile_cons_of_neg ?_
      simp only [beq_iff_eq]
      intro hc
      exact h (hc ▸ List.mem_cons_self c t)
  have h2 : l.reverse.dropWhile (· == '?') = l.reverse := by
    cases hr : l.reverse with
    | nil => rfl
    | cons c t =>
      refine List.dropWhile_cons_of_neg ?_
      simp only [beq_iff_eq]
      intro hc
      subst hc
      have : '?' ∈ l.reverse := hr ▸ List.mem_cons_self _ t
      exact h (List.mem_reverse.1 this)
  rw [stripQ, h1, h2, List.reverse_reverse]

theorem stopMatch_of_endsStar {l : List Char} (h : endsStar l = true)
    (hl : 2 ≤ l.length) : stopMatch l = true := by
  have hlast : l.getLast? = some '*' := by simpa [endsStar] using h
  have hrev : l.reverse.head? = some '*' := by
    rw [List.head?_reverse]; exact hlast
  cases hr : l.reverse with
  | nil => rw [hr] at hrev; exact absurd hrev (by simp)
  | cons a t =>
    rw [hr] at hrev
    injection hrev with ha
    subst ha
    cases t with
    | nil =>
      have := congrArg List.length hr
      simp at this
      omega
    | cons b t' =>
      have hstar : isDigitCh '*' = false := by decide
      unfold stopMatch
      rw [hr, List.dropWhile_cons_of_neg (by simp [hstar])]
      rfl

theorem endsStar_of_missense {l : List Char} (hm : missenseMatch l = true) :
    endsStar l = false := by
  obtain ⟨c0, mid, cl, heq, _, _, _, hcl⟩ := missense_shape hm
  subst heq
  have hlast : (c0 :: (mid ++ [cl])).getLast? = some cl := by
    rw [← List.cons_append]; exact List.getLast?_concat _
  have hne : cl ≠ '*' := by
    intro hc
    rw [hc] at hcl
    exact absurd hcl (by decide)
  simp [endsStar, hlast, hne]

theorem fsStop_of_stopMatch {l : List Char} (h : stopMatch l = true)
    (he : endsStar l = false) : ∃ ds, fsStop l = some ds := by
  unfold stopMatch at h
  split at h
  · next x t hdw =>
    have hds : l.reverse.takeWhile isDigitCh ≠ [] := by
      cases hr : l.reverse with
      | nil => rw [hr] at hdw; simp at hdw
      | cons a r' =>
        by_cases hd : isDigitCh a = true
        · rw [List.takeWhile_cons_of_pos hd]
          simp
        · rw [hr, List.dropWhile_cons_of_neg (by simp [hd])] at hdw
          injection hdw with ha
          subst ha
          have : l.getLast? = some '*' := by
            rw [← List.head?_reverse, hr]; rfl
          simp [endsStar, this] at he
    refine ⟨(l.reverse.takeWhile isDigitCh).reverse, ?_⟩
    unfold fsStop
    dsimp only
    rw [if_neg hds, hdw]
    rfl
  · exact absurd h (by simp)

/-! ## Parse-level plumbing -/

theorem setMutationStatus_body (s : String) :
    setMutationStatus s.data (upperOf s) =
      { unknown_effect := unknownEffectFlag (bodyOf s)
        is_missing_info := missingInfoFlag (bodyOf s)
        no_protein := noProteinFlag (bodyOf s)
        is_missense := missenseMatch (bodyOf s)
        is_frame_shift := containsSub ['f', 's'] s.data
        is_premature_stop_codon := stopMatch (bodyOf s)
        is_nonsense_mutation := stopMatch (bodyOf s) && endsStar (bodyOf s)
        is_insertion := containsSub ['i', 'n', 's'] s.data
        is_deletion := !containsSub ['i', 'n', 's'] s.data &&
          containsSub ['d', 'e', 'l'] s.data
        is_indel := containsSub ['i', 'n', 's'] s.data ||
          containsSub ['d', 'e', 'l'] s.data } := rfl

theorem parseAA_def (s : String) :
    parseAA s = (readHgvs (setMutationStatus s.data (upperOf s)) (bodyOf s)).map
      (mkAminoAcid s (upperOf s) 1 (setMutationStatus s.data (upperOf s))) := rfl

theorem contains_eq_false_of_not_mem {b : List Char} {c : Char} (h : c ∉ b) :
    b.contains c = false := by
  simpa using h

theorem contains_eq_true_iff_mem {b : List Char} {c : Char} :
    b.contains c = true ↔ c ∈ b := by
  simp

theorem missingInfoFlag_eq_false {s : String} (hq : '?' ∉ s.data) :
    missingInfoFlag (bodyOf s) = false := by
  unfold missingInfoFlag
  exact contains_eq_false_of_not_mem fun hmem => hq (qmark_mem_of_body hmem)

/-! ## Claim theorems -/

/-- C1: the claim says `AminoAcid` construction terminates without raising for
every input string, including `'A12ins'` and bare `'fs'`. The code violates
this: on `'A12ins'` the insertion branch evaluates
`re.findall('(?<=INS)[A-Z0-9?]+', 'A12INS')[0]` on an empty match list and
raises `IndexError`, and on `'fs'` the frameshift branch evaluates
`re.findall('[A-Z](\d+)', 'FS')[0]` likewise; both parses are modelled as
`none` (an uncaught exception). -/
theorem claim_C1_parse_raises :
    parseAA "A12ins" = none ∧ parseAA "fs" = none := ⟨rfl, rfl⟩

/-- C2 counterexample: for the unmatched input `""` the claim asserts the
`positions` attribute is present and empty; in the code the invalid branch
assigns no structural attribute at all, so the attribute is absent
(`Option.none` at the outer level), not present-and-empty. -/
theorem claim_C2_counterexample :
    (parseAA "").map AminoAcid.pos = some Option.none ∧
    (parseAA "").map AminoAcid.pos ≠ some (some (PyVal.list [])) := by
  refine ⟨rfl, ?_⟩
  intro h
  rw [show (parseAA "").map AminoAcid.pos = some Option.none from rfl] at h
  injection h with h'
  exact Option.noConfusion h'

/-- C2 amended: an input matching no structural category parses without
exception to a record with category `Invalid` and the raw input preserved,
but with all structural attributes (`initial`, `pos`, `mutated`, `stop_pos`)
left unassigned rather than present-and-empty. -/
theorem claim_C2_invalid_unassigned (s : String)
    (hms : missenseMatch (bodyOf s) = false)
    (hins : containsSub ['i', 'n', 's'] s.data = false)
    (hdel : containsSub ['d', 'e', 'l'] s.data = false)
    (hns : (stopMatch (bodyOf s) && endsStar (bodyOf s)) = false)
    (hfs : containsSub ['f', 's'] s.data = false) :
    ∃ a, parseAA s = some a ∧ a.hgvs_original = s ∧
      categoryOf a = Category.Invalid ∧ a.is_valid = false ∧
      a.initial = Option.none ∧ a.pos = Option.none ∧
      a.mutated = Option.none ∧ a.stop_pos = Option.none := by
  have hread : readHgvs (setMutationStatus s.data (upperOf s)) (bodyOf s) =
      some { is_valid := false, is_synonymous := Option.none,
             initial := Option.none, pos := Option.none,
             mutated := Option.none, stop_pos := Option.none } := by
    rw [setMutationStatus_body]
    unfold readHgvs
    simp only [hms, hins, hdel, hns, hfs, Bool.or_self, Bool.false_eq_true,
      if_false]
  rw [parseAA_def, hread]
  refine ⟨_, rfl, rfl, ?_, rfl, rfl, rfl, rfl, rfl⟩
  simp [categoryOf, mkAminoAcid, setMutationStatus_body, hms, hins, hdel,
    hns, hfs]

/-- C2 witness: the amended statement evaluated at the empty input string. -/
theorem claim_C2_invalid_unassigned_witness :
    ∃ a, parseAA "" = some a ∧ a.hgvs_original = "" ∧
      categoryOf a = Category.Invalid ∧ a.is_valid = false ∧
      a.initial = Option.none ∧ a.pos = Option.none ∧
      a.mutated = Option.none ∧ a.stop_pos = Option.none :=
  claim_C2_invalid_unassigned "" rfl rfl rfl rfl rfl

/-- C3 counterexample: the claim says `unknown_effect` / `no_protein` are
computed on the original (non-prefix-stripped) normalized string. On input
`'p.?'` that string is `'P.?'`, for which the claimed condition (membership
in `{?, (=), =}` or containing `'('`) is false, yet the code sets
`unknown_effect = True`; likewise for `no_protein` on `'p.0'`. The flags are
in fact computed on the prefix-stripped body. -/
theorem claim_C3_counterexample :
    (parseAA "p.?").map AminoAcid.unknown_effect = some true ∧
    unknownEffectFlag (upperOf "p.?") = false ∧
    (parseAA "p.0").map AminoAcid.no_protein = some true ∧
    noProteinFlag (upperOf "p.0") = false := ⟨rfl, rfl, rfl, rfl⟩

/-- C3 amended: `unknown_effect` and `no_protein` are computed on the
prefix-stripped, upper-cased body, exactly like `is_missing_info`:
`unknown_effect` is true iff the body is `?`, `(=)` or `=` or contains `(`,
and `no_protein` is true iff the body is `0` or `0?`. (In particular
`'p.(=)'`, `'p.?'` and `'p.='` still give `unknown_effect = true`, because
their stripped bodies satisfy the condition.) -/
theorem claim_C3_flags_on_stripped_body (s : String) (a : AminoAcid)
    (h : parseAA s = some a) :
    (a.unknown_effect = true ↔ (bodyOf s = ['?'] ∨ bodyOf s = ['(', '=', ')'] ∨
      bodyOf s = ['='] ∨ '(' ∈ bodyOf s)) ∧
    (a.no_protein = true ↔ (bodyOf s = ['0'] ∨ bodyOf s = ['0', '?'])) := by
  rw [parseAA_def, Option.map_eq_some'] at h
  obtain ⟨e, _, hmk⟩ := h
  subst hmk
  constructor
  · show (setMutationStatus s.data (upperOf s)).unknown_effect = true ↔ _
    rw [setMutationStatus_body]
    show unknownEffectFlag (bodyOf s) = true ↔ _
    unfold unknownEffectFlag
    split_ifs with h1 h2
    · simp only [true_iff]
      rcases h1 with h1 | h1 | h1
      · exact Or.inl h1
      · exact Or.inr (Or.inl h1)
      · exact Or.inr (Or.inr (Or.inl h1))
    · simp only [true_iff]
      exact Or.inr (Or.inr (Or.inr (contains_eq_true_iff_mem.1 h2)))
    · simp only [false_iff]
      push_neg at h1
      intro hh
      rcases hh with hh | hh | hh | hh
      · exact h1.1 hh
      · exact h1.2.1 hh
      · exact h1.2.2 hh
      · exact absurd (contains_eq_false_of_not_mem (fun hm => by
          rw [contains_eq_true_iff_mem.2 hm] at h2; exact h2 rfl)) (by
            intro hc
            exact (by rwa [contains_eq_true_iff_mem] at h2 : '(' ∉ bodyOf s) hh)
  · show (setMutationStatus s.data (upperOf s)).no_protein = true ↔ _
    rw [setMutationStatus_body]
    show noProteinFlag (bodyOf s) = true ↔ _
    unfold noProteinFlag
    split_ifs with h1
    · simpa using h1
    · simpa using h1

/-- C3 witness: the amended flag-scope statement applied at `'p.(=)'`,
whose stripped body `(=)` satisfies the condition, giving
`unknown_effect = true`. -/
theorem claim_C3_flags_on_stripped_body_witness :
    ∃ a, parseAA "p.(=)" = some a ∧ a.unknown_effect = true := by
  obtain ⟨a, ha⟩ : ∃ a, parseAA "p.(=)" = some a := ⟨_, rfl⟩
  exact ⟨a, ha,
    ((claim_C3_flags_on_stripped_body "p.(=)" a ha).1).2 (Or.inr (Or.inl (by decide)))⟩

/-- C4 counterexample: `'p.G12DEL'` and `'p.g12del'` are letter-case variants
of each other (identical after upper-casing), yet the code classifies the
first as Invalid and the second as Deletion, because the `ins`/`del`/`fs`
tests are case-sensitive lowercase substring tests on the raw input. -/
theorem claim_C4_counterexample :
    upperOf "p.G12DEL" = upperOf "p.g12del" ∧
    (parseAA "p.G12DEL").map categoryOf = some Category.Invalid ∧
    (parseAA "p.g12del").map categoryOf = some Category.Deletion ∧
    Category.Invalid ≠ Category.Deletion := ⟨rfl, rfl, rfl, by decide⟩

/-- C4 amended: the missense and nonsense tests are case-insensitive (they
run on the upper-cased body), but the insertion/deletion/frameshift
determinations test for the lowercase substrings `ins`/`del`/`fs` in the raw
input. Hence the category is invariant under exactly those case changes that
preserve the three lowercase substring tests: if two inputs agree after
upper-casing and agree on the three tests, they get the same category. -/
theorem claim_C4_category_depends (s t : String)
    (hup : upperOf s = upperOf t)
    (hins : containsSub ['i', 'n', 's'] s.data = containsSub ['i', 'n', 's'] t.data)
    (hdel : containsSub ['d', 'e', 'l'] s.data = containsSub ['d', 'e', 'l'] t.data)
    (hfs : containsSub ['f', 's'] s.data = containsSub ['f', 's'] t.data) :
    (parseAA s).map categoryOf = (parseAA t).map categoryOf := by
  have hb : bodyOf s = bodyOf t := by rw [bodyOf, hup, bodyOf]
  have hf : setMutationStatus s.data (upperOf s) =
      setMutationStatus t.data (upperOf t) := by
    rw [setMutationStatus_body, setMutationStatus_body, hb, hins, hdel, hfs]
  rw [parseAA_def, parseAA_def, hf, hb]
  cases readHgvs (setMutationStatus t.data (upperOf t)) (bodyOf t) with
  | none => rfl
  | some e =>
    show some (categoryOf (mkAminoAcid s _ 1 _ e)) =
      some (categoryOf (mkAminoAcid t _ 1 _ e))
    rfl

/-- C4 witness: `'p.G12del'` and `'P.g12del'` agree after upper-casing and on
the lowercase substring tests, so they receive the same category. -/
theorem claim_C4_category_depends_witness :
    (parseAA "p.G12del").map categoryOf = (parseAA "P.g12del").map categoryOf :=
  claim_C4_category_depends "p.G12del" "P.g12del" rfl rfl rfl rfl

/-- C5 counterexample: for `'p.W25*'` the nonsense branch stores
`self.pos = aa_hgvs[1:-1]`, the *string* `'25'`, not the integer 25 (and not
a list containing it) — the typing differs from the missense case, which
stores `int(...)`. -/
theorem claim_C5_counterexample :
    (parseAA "p.W25*").map AminoAcid.pos = some (some (PyVal.str "25")) ∧
    (parseAA "p.W25*").map AminoAcid.pos ≠ some (some (PyVal.int 25)) ∧
    (parseAA "p.W25*").map AminoAcid.pos ≠ some (some (PyVal.list [PyVal.int 25])) := by
  have h1 : (parseAA "p.W25*").map AminoAcid.pos = some (some (PyVal.str "25")) := rfl
  refine ⟨h1, ?_, ?_⟩
  · intro h
    rw [h1] at h
    injection h with h2
    injection h2 with h3
    exact PyVal.noConfusion h3
  · intro h
    rw [h1] at h
    injection h with h2
    injection h2 with h3
    exact PyVal.noConfusion h3

/-- C5 amended: a string whose body ends in `'*'` with at least one preceding
character and which is not an indel (no lowercase `ins`/`del` in the raw
input; the `fs` hypothesis is kept from the claim but the nonsense branch
precedes the frameshift branch anyway) parses to category Nonsense with
`initial` the first body character, `mutated` empty, `stop_pos = 0`, and
`pos` the substring `body[1:-1]` stored as a *string*, not as an integer. -/
theorem claim_C5_nonsense_pos_string (s : String)
    (hstar : endsStar (bodyOf s) = true)
    (hlen : 2 ≤ (bodyOf s).length)
    (hins : containsSub ['i', 'n', 's'] s.data = false)
    (hdel : containsSub ['d', 'e', 'l'] s.data = false)
    (hfs : containsSub ['f', 's'] s.data = false) :
    ∃ a, parseAA s = some a ∧ categoryOf a = Category.Nonsense ∧
      a.initial = some (PyVal.str (String.mk ((bodyOf s).take 1))) ∧
      a.mutated = some (PyVal.str "") ∧ a.stop_pos = some (PyVal.int 0) ∧
      a.pos = some (PyVal.str (String.mk (middle (bodyOf s)))) := by
  have hms : missenseMatch (bodyOf s) = false := by
    cases hm : missenseMatch (bodyOf s) with
    | false => rfl
    | true => rw [endsStar_of_missense hm] at hstar; exact Bool.noConfusion hstar
  have hstop : stopMatch (bodyOf s) = true := stopMatch_of_endsStar hstar hlen
  obtain ⟨c0, rest, hbody⟩ : ∃ c0 rest, bodyOf s = c0 :: rest := by
    cases hb : bodyOf s with
    | nil => rw [hb] at hlen; simp at hlen
    | cons c r => exact ⟨c, r, rfl⟩
  have hread : readHgvs (setMutationStatus s.data (upperOf s)) (bodyOf s) =
      some { is_valid := true, is_synonymous := Option.none,
             initial := some (.str (String.mk [c0])),
             mutated := some (.str ""), stop_pos := some (.int 0),
             pos := some (.str (String.mk (middle (bodyOf s)))) } := by
    have hh : (bodyOf s).head? = some c0 := by rw [hbody]; rfl
    rw [setMutationStatus_body]
    unfold readHgvs
    simp only [hms, hins, hdel, hfs, hstop, hstar, Bool.and_self, Bool.or_self,
      Bool.false_eq_true, if_false, if_true, hh]
  rw [parseAA_def, hread]
  refine ⟨_, rfl, ?_, ?_, rfl, rfl, rfl⟩
  · simp [categoryOf, mkAminoAcid, setMutationStatus_body, hms, hins, hdel,
      hstop, hstar]
  · simp [mkAminoAcid, hbody]

/-- C5 witness: the amended nonsense statement evaluated at `'p.W25*'`. -/
theorem claim_C5_nonsense_pos_string_witness :
    ∃ a, parseAA "p.W25*" = some a ∧ categoryOf a = Category.Nonsense ∧
      a.initial = some (PyVal.str (String.mk ((bodyOf "p.W25*").take 1))) ∧
      a.mutated = some (PyVal.str "") ∧ a.stop_pos = some (PyVal.int 0) ∧
      a.pos = some (PyVal.str (String.mk (middle (bodyOf "p.W25*")))) :=
  claim_C5_nonsense_pos_string "p.W25*" (by decide) (by decide) rfl rfl rfl

theorem INS_infix_body {s : String} (h : containsSub ['i', 'n', 's'] s.data = true) :
    ['I', 'N', 'S'] <:+: bodyOf s := by
  have h1 : ['i', 'n', 's'] <:+: s.data := (containsSub_iff _ _).1 h
  have h2 := List.IsInfix.map pyUpper h1
  rw [show ['i', 'n', 's'].map pyUpper = ['I', 'N', 'S'] from rfl] at h2
  exact infix_stripP (by decide) (by decide) h2

theorem DEL_infix_body {s : String} (h : containsSub ['d', 'e', 'l'] s.data = true) :
    ['D', 'E', 'L'] <:+: bodyOf s := by
  have h1 : ['d', 'e', 'l'] <:+: s.data := (containsSub_iff _ _).1 h
  have h2 := List.IsInfix.map pyUpper h1
  rw [show ['d', 'e', 'l'].map pyUpper = ['D', 'E', 'L'] from rfl] at h2
  exact infix_stripP (by decide) (by decide) h2

/-- C6 counterexample: `'p.A12INSG'` contains `ins` in a letter case (namely
`INS`) and contains no `'?'`, yet the code classifies it Invalid, because the
insertion test is the case-sensitive lowercase test `'ins' in hgvs_original`. -/
theorem claim_C6_counterexample :
    containsSub ['I', 'N', 'S'] "p.A12INSG".data = true ∧
    containsSub ['?'] "p.A12INSG".data = false ∧
    (parseAA "p.A12INSG").map categoryOf = some Category.Invalid ∧
    Category.Invalid ≠ Category.Insertion := ⟨rfl, rfl, rfl, by decide⟩

/-- C6 amended: a string containing the *lowercase* substring `ins`, with no
`'?'` anywhere, and whose body has at least one `[A-Z0-9?]` character after
an `INS` occurrence (otherwise the parse raises, cf. C1), parses to category
Insertion with non-empty `mutated_residues`. -/
theorem claim_C6_insertion (s : String) (run : List Char)
    (hins : containsSub ['i', 'n', 's'] s.data = true)
    (hq : '?' ∉ s.data)
    (hrun : insAfter (bodyOf s) = some run) :
    ∃ a, parseAA s = some a ∧ categoryOf a = Category.Insertion ∧
      a.mutated = some (PyVal.str (String.mk run)) ∧ run ≠ [] := by
  have hms : missenseMatch (bodyOf s) = false :=
    not_missense_of_infix3 (by decide) (by decide) (by decide) (INS_infix_body hins)
  have hmi : missingInfoFlag (bodyOf s) = false := missingInfoFlag_eq_false hq
  have hq' : '?' ∉ run := fun hmem =>
    hq (qmark_mem_of_body ((insAfter_mem hrun).2 '?' hmem))
  have hstrip : stripQ run = run := stripQ_of_not_mem hq'
  have hread : readHgvs (setMutationStatus s.data (upperOf s)) (bodyOf s) =
      some { is_valid := true, is_synonymous := Option.none,
             initial := some (.list ((letterDigitMatches (bodyOf s)).take 2 |>.map
               fun m => .str (String.mk [m.1])))
             pos := some (.list ((letterDigitMatches (bodyOf s)).take 2 |>.map
               fun m => .int (natOfDigits m.2)))
             mutated := some (.str (String.mk (stripQ run)))
             stop_pos := Option.none } := by
    rw [setMutationStatus_body]
    unfold readHgvs
    simp only [hms, hins, hmi, hrun, Bool.true_or, Bool.not_false,
      Bool.false_eq_true, if_false, if_true]
  rw [parseAA_def, hread]
  refine ⟨_, rfl, ?_, ?_, (insAfter_mem hrun).1⟩
  · simp [categoryOf, mkAminoAcid, setMutationStatus_body, hms, hins]
  · simp [mkAminoAcid, hstrip]

/-- C6 witness: the amended insertion statement evaluated at `'p.A12insG'`. -/
theorem claim_C6_insertion_witness :
    ∃ a, parseAA "p.A12insG" = some a ∧ categoryOf a = Category.Insertion ∧
      a.mutated = some (PyVal.str (String.mk ['G'])) ∧ ['G'] ≠ ([] : List Char) :=
  claim_C6_insertion "p.A12insG" ['G'] rfl (by decide) rfl

/-- C7 counterexample: `'p.R97fs*'` contains `fs`, matches neither missense
nor the indel substring tests, yet its category is Nonsense, not Frameshift:
its body ends in a bare `'*'`, and in the branch cascade the nonsense branch
precedes the frameshift branch. -/
theorem claim_C7_counterexample :
    containsSub ['f', 's'] "p.R97fs*".data = true ∧
    missenseMatch (bodyOf "p.R97fs*") = false ∧
    containsSub ['i', 'n', 's'] "p.R97fs*".data = false ∧
    containsSub ['d', 'e', 'l'] "p.R97fs*".data = false ∧
    (parseAA "p.R97fs*").map categoryOf = some Category.Nonsense ∧
    Category.Nonsense ≠ Category.Frameshift := ⟨rfl, rfl, rfl, rfl, rfl, by decide⟩

/-- C7 amended: a string containing the lowercase substring `fs`, matching
neither missense nor the indel substring tests, *not* classified nonsense
(its body does not match the stop pattern with a bare trailing `'*'`), and
whose body contains a letter followed by digits (otherwise the parse raises,
cf. C1), parses to category Frameshift. -/
theorem claim_C7_frameshift (s : String) (ds : List Char)
    (hfs : containsSub ['f', 's'] s.data = true)
    (hms : missenseMatch (bodyOf s) = false)
    (hins : containsSub ['i', 'n', 's'] s.data = false)
    (hdel : containsSub ['d', 'e', 'l'] s.data = false)
    (hns : (stopMatch (bodyOf s) && endsStar (bodyOf s)) = false)
    (hld : firstLetterDigits (bodyOf s) = some ds) :
    ∃ a, parseAA s = some a ∧ categoryOf a = Category.Frameshift ∧
      a.pos = some (PyVal.int (natOfDigits ds)) := by
  obtain ⟨c0, rest, hbody⟩ : ∃ c0 rest, bodyOf s = c0 :: rest := by
    cases hb : bodyOf s with
    | nil => rw [hb] at hld; exact absurd hld (by simp [firstLetterDigits])
    | cons c r => exact ⟨c, r, rfl⟩
  have hh : (bodyOf s).head? = some c0 := by rw [hbody]; rfl
  have hcat : ∀ e, categoryOf (mkAminoAcid s (upperOf s) 1
      (setMutationStatus s.data (upperOf s)) e) = Category.Frameshift := by
    intro e
    simp [categoryOf, mkAminoAcid, setMutationStatus_body, hms, hins, hdel,
      hns, hfs]
  by_cases hstop : stopMatch (bodyOf s) = true
  · have hes : endsStar (bodyOf s) = false := by
      rw [hstop] at hns; simpa using hns
    obtain ⟨ds2, hds2⟩ := fsStop_of_stopMatch hstop hes
    have hread : readHgvs (setMutationStatus s.data (upperOf s)) (bodyOf s) =
        some { is_valid := true, is_synonymous := Option.none,
               initial := some (.str (String.mk [c0])),
               mutated := some (.str ""),
               pos := some (.int (natOfDigits ds)),
               stop_pos := some (.int (natOfDigits ds2)) } := by
      rw [setMutationStatus_body]
      unfold readHgvs
      simp only [hms, hins, hdel, hns, hfs, hstop, hes, hh, hld, hds2,
        Bool.or_self, Bool.true_and, Bool.and_false, Bool.false_eq_true,
        if_false, if_true, Option.map_some']
    rw [parseAA_def, hread]
    exact ⟨_, rfl, hcat _, by simp [mkAminoAcid]⟩
  · have hstop' : stopMatch (bodyOf s) = false := by simpa using hstop
    have hread : readHgvs (setMutationStatus s.data (upperOf s)) (bodyOf s) =
        some { is_valid := true, is_synonymous := Option.none,
               initial := some (.str (String.mk [c0])),
               mutated := some (.str ""),
               pos := some (.int (natOfDigits ds)),
               stop_pos := some PyVal.none } := by
      rw [setMutationStatus_body]
      unfold readHgvs
      simp only [hms, hins, hdel, hns, hfs, hstop', hh, hld,
        Bool.or_self, Bool.false_and, Bool.false_eq_true, if_false, if_true,
        Option.map_some']
    rw [parseAA_def, hread]
    exact ⟨_, rfl, hcat _, by simp [mkAminoAcid]⟩

/-- C7 witness: the amended frameshift statement evaluated at `'p.R97fs*13'`
(which also carries a stop offset, exercising the premature-stop path). -/
theorem claim_C7_frameshift_witness :
    ∃ a, parseAA "p.R97fs*13" = some a ∧ categoryOf a = Category.Frameshift ∧
      a.pos = some (PyVal.int (natOfDigits ['9', '7'])) :=
  claim_C7_frameshift "p.R97fs*13" ['9', '7'] rfl rfl rfl rfl rfl rfl

/-- C8: a string whose prefix-stripped, upper-cased body fully matches
`^[A-Z?]\d+[A-Z?]$` parses to category Missense — refined to Synonymous
exactly when the first and last body characters coincide — and the position
attribute holds the integer denoted by the embedded digits (the source
stores this single position directly as `int(body[1:-1])`; the
specification's singleton `positions` sequence abstracts that scalar). -/
theorem claim_C8_missense (s : String)
    (hm : missenseMatch (bodyOf s) = true) :
    ∃ a, parseAA s = some a ∧
      a.pos = some (PyVal.int (natOfDigits (middle (bodyOf s)))) ∧
      categoryOf a = (if (bodyOf s).head? = (bodyOf s).getLast?
        then Category.Synonymous else Category.Missense) := by
  obtain ⟨c0, mid, cl, heq, hne, hdig, hc0, hcl⟩ := missense_shape hm
  have hhead : (bodyOf s).head? = some c0 := by rw [heq]; rfl
  have hlast : (bodyOf s).getLast? = some cl := by
    rw [heq, ← List.cons_append]
    exact List.getLast?_concat _
  have hmid : middle (bodyOf s) = mid := by
    rw [heq, middle]
    simp [List.dropLast_concat]
  have hpy : pyInt (middle (bodyOf s)) = some (natOfDigits mid) := by
    rw [hmid]
    unfold pyInt
    rw [if_pos ⟨hne, List.all_eq_true.2 hdig⟩]
  have hread : readHgvs (setMutationStatus s.data (upperOf s)) (bodyOf s) =
      some { is_valid := true, is_synonymous := some (c0 == cl),
             initial := some (.str (String.mk [c0])),
             mutated := some (.str (String.mk [cl])),
             pos := some (.int (natOfDigits mid)),
             stop_pos := some PyVal.none } := by
    rw [setMutationStatus_body]
    unfold readHgvs
    simp only [hm, if_true, hhead, hlast, hpy]
  rw [parseAA_def, hread]
  refine ⟨_, rfl, by simp [mkAminoAcid, hmid], ?_⟩
  rw [hhead, hlast]
  simp only [categoryOf, mkAminoAcid, setMutationStatus_body, hm, if_true,
    Option.some.injEq]
  by_cases hcc : c0 = cl
  · subst hcc
    simp
  · simp [hcc]

/-- C8 witness: the missense statement evaluated at `'p.A267C'` (Missense)
and at `'p.R97R'` (Synonymous). -/
theorem claim_C8_missense_witness :
    (∃ a, parseAA "p.A267C" = some a ∧
      a.pos = some (PyVal.int (natOfDigits (middle (bodyOf "p.A267C")))) ∧
      categoryOf a = (if (bodyOf "p.A267C").head? = (bodyOf "p.A267C").getLast?
        then Category.Synonymous else Category.Missense)) ∧
    (∃ a, parseAA "p.R97R" = some a ∧
      a.pos = some (PyVal.int (natOfDigits (middle (bodyOf "p.R97R")))) ∧
      categoryOf a = (if (bodyOf "p.R97R").head? = (bodyOf "p.R97R").getLast?
        then Category.Synonymous else Category.Missense)) :=
  ⟨claim_C8_missense "p.A267C" rfl, claim_C8_missense "p.R97R" rfl⟩

theorem categoryOf_ins_or_del {a : AminoAcid}
    (h : categoryOf a = Category.Insertion ∨ categoryOf a = Category.Deletion) :
    a.is_missense = false ∧
      (a.is_insertion = true ∨ (a.is_insertion = false ∧ a.is_deletion = true)) := by
  unfold categoryOf at h
  rcases h with h | h <;> split_ifs at h <;> simp_all

/-- C9: when a record is classified Insertion or Deletion and
`is_missing_info` is set, extraction assigns the empty string to `initial`,
the empty list to `pos` and the empty string to `mutated` — no partial
extraction is attempted. -/
theorem claim_C9_missing_info_empty (s : String) (a : AminoAcid)
    (h : parseAA s = some a) (hmi : a.is_missing_info = true)
    (hcat : categoryOf a = Category.Insertion ∨ categoryOf a = Category.Deletion) :
    a.initial = some (PyVal.str "") ∧ a.pos = some (PyVal.list []) ∧
      a.mutated = some (PyVal.str "") := by
  obtain ⟨hms, hid⟩ := categoryOf_ins_or_del hcat
  rw [parseAA_def, setMutationStatus_body, Option.map_eq_some'] at h
  obtain ⟨e, he, hmk⟩ := h
  subst hmk
  simp only [mkAminoAcid] at hms hmi hid ⊢
  unfold readHgvs at he
  simp only [hms, hmi, Bool.false_eq_true, if_false, Bool.not_true] at he
  rcases hid with hins | ⟨hins, hdel2⟩
  · simp only [hins, Bool.true_or, if_true, Bool.false_eq_true, if_false] at he
    injection he with he'
    subst he'
    exact ⟨rfl, rfl, rfl⟩
  · simp only [hins, Bool.not_false, Bool.true_and] at hdel2
    simp only [hins, hdel2, Bool.false_or, Bool.not_false, Bool.true_and,
      if_true, Bool.false_eq_true, if_false] at he
    injection he with he'
    subst he'
    exact ⟨rfl, rfl, rfl⟩

/-- C9 witness: `'p.?_?ins?'` is an Insertion with `is_missing_info = true`,
and the theorem yields its empty `pos` and `mutated`. -/
theorem claim_C9_missing_info_empty_witness :
    (parseAA "p.?_?ins?").map AminoAcid.pos = some (some (PyVal.list [])) ∧
    (parseAA "p.?_?ins?").map AminoAcid.mutated = some (some (PyVal.str "")) ∧
    (parseAA "p.?_?ins?").map categoryOf = some Category.Insertion ∧
    (parseAA "p.?_?ins?").map AminoAcid.is_missing_info = some true := by
  obtain ⟨a, ha⟩ : ∃ a, parseAA "p.?_?ins?" = some a := ⟨_, rfl⟩
  have hmi : a.is_missing_info = true := by
    have h0 : (parseAA "p.?_?ins?").map AminoAcid.is_missing_info = some true := rfl
    rw [ha, Option.map_some'] at h0
    exact Option.some.inj h0
  have hcat : categoryOf a = Category.Insertion := by
    have h0 : (parseAA "p.?_?ins?").map categoryOf = some Category.Insertion := rfl
    rw [ha, Option.map_some'] at h0
    exact Option.some.inj h0
  obtain ⟨hini, hpos, hmut⟩ :=
    claim_C9_missing_info_empty "p.?_?ins?" a ha hmi (Or.inl hcat)
  rw [ha]
  simp [Option.map_some', hpos, hmut, hcat, hmi]

/-- C10: for a full-information deletion (lowercase `del` in the raw input,
no `ins`, no `'?'`) the parse always completes: the `DEL` marker survives
upper-casing and prefix stripping, the letters-after-`DEL` scan accepts an
empty match, and `mutated` is a possibly-empty string of residue letters —
unlike the insertion branch, whose after-`INS` scan needs one character. -/
theorem claim_C10_deletion_total (s : String)
    (hdel : containsSub ['d', 'e', 'l'] s.data = true)
    (hins : containsSub ['i', 'n', 's'] s.data = false)
    (hq : '?' ∉ s.data) :
    ∃ a run, parseAA s = some a ∧ categoryOf a = Category.Deletion ∧
      a.mutated = some (PyVal.str (String.mk run)) ∧
      run.all isUpperAlpha = true := by
  have hms : missenseMatch (bodyOf s) = false :=
    not_missense_of_infix3 (by decide) (by decide) (by decide) (DEL_infix_body hdel)
  have hmi : missingInfoFlag (bodyOf s) = false := missingInfoFlag_eq_false hq
  obtain ⟨run, hrun, hall⟩ := delAfter_of_infix (DEL_infix_body hdel)
  have hread : readHgvs (setMutationStatus s.data (upperOf s)) (bodyOf s) =
      some { is_valid := true, is_synonymous := Option.none,
             initial := some (.list ((letterDigitMatches (bodyOf s)).map
               fun m => .str (String.mk [m.1])))
             pos := some (.list ((letterDigitMatches (bodyOf s)).map
               fun m => .int (natOfDigits m.2)))
             mutated := some (.str (String.mk run))
             stop_pos := Option.none } := by
    rw [setMutationStatus_body]
    unfold readHgvs
    simp only [hms, hins, hdel, hmi, hrun, Bool.false_or, Bool.not_false,
      Bool.true_and, Bool.false_eq_true, if_false, if_true]
  rw [parseAA_def, hread]
  refine ⟨_, run, rfl, ?_, ?_, hall⟩
  · simp [categoryOf, mkAminoAcid, setMutationStatus_body, hms, hins, hdel]
  · simp [mkAminoAcid]

/-- C10 witness: the deletion-totality statement evaluated at `'p.G12del'`
(whose after-`DEL` letter run is empty). -/
theorem claim_C10_deletion_total_witness :
    ∃ a run, parseAA "p.G12del" = some a ∧ categoryOf a = Category.Deletion ∧
      a.mutated = some (PyVal.str (String.mk run)) ∧
      run.all isUpperAlpha = true :=
  claim_C10_deletion_total "p.G12del" rfl rfl (by decide)
